import Mathlib

/-!
Verification of the `nf-co2footprint` TDP data-preparation scripts.

This file is a shallow embedding of the two Python scripts

  * `src/plugins/nf-co2footprint/src/resources/tdp-cpu/merge.py`
  * `src/plugins/nf-co2footprint/src/resources/tdp-cpu/GreenAlgorithms/pre_process.py`

together with theorems settling the specification claims about them.

Modelling conventions:

  * Python strings are `List Char` (`Str`), with the string functions
    (`strip`, `replace`, `split`, `in`) transcribed as executable Lean
    functions (`trim`, `replaceAll`, `splitOnChar`, `hasSub`).
  * Python `float` values are modelled as rationals; `float(s)` and `int(s)`
    become `parseFloat : Str → Option ℚ` and `parseInt : Str → Option ℤ`,
    returning `none` where Python raises `ValueError`.  The parsers cover
    plain signed decimal literals, the only forms relevant to the data.
  * A CSV file read through `csv.DictReader` is a list of field names plus a
    list of rows; a row is a finitely-supported map from column name to cell
    given as an association list.
  * The shared `processors` dict is an association list with Python dict
    update semantics (`upsertA`): overwrite in place if the key is present,
    append otherwise.
  * An uncaught Python exception terminates the script, so functions whose
    source can raise uncaught exceptions return `Except Str α`; the partially
    mutated dict at the moment of a crash is unobservable (the script dies
    before the output file is written) and is not carried by the error.
-/

abbrev Str := List Char

/-- Python `str.strip()` (restricted to ASCII whitespace, which is all the
data contains). -/
def trim (l : Str) : Str :=
  ((l.dropWhile Char.isWhitespace).reverse.dropWhile Char.isWhitespace).reverse

/-- Does `pat` occur at the very front of the second list? -/
def leadsWith : Str → Str → Bool
  | [], _ => true
  | _ :: _, [] => false
  | a :: as, b :: bs => a == b && leadsWith as bs

/-- Fuel-driven worker for `replaceAll`; fuel bounded by the length of the
list suffices because every step consumes at least one character. -/
def replaceGo (pat rep : Str) : Nat → Str → Str
  | _, [] => []
  | 0, l => l
  | fuel + 1, c :: rest =>
    if !pat.isEmpty && leadsWith pat (c :: rest) then
      rep ++ replaceGo pat rep fuel (List.drop pat.length (c :: rest))
    else
      c :: replaceGo pat rep fuel rest

/-- Python `str.replace(pat, rep)`: single left-to-right pass replacing
non-overlapping occurrences. -/
def replaceAll (pat rep l : Str) : Str := replaceGo pat rep l.length l

/-- Python `str.split(c)` for a one-character separator. -/
def splitOnChar (c : Char) : Str → List Str
  | [] => [[]]
  | d :: rest =>
    match splitOnChar c rest with
    | [] => [[]]
    | h :: t => if d == c then [] :: h :: t else (d :: h) :: t

/-- Python substring test `pat in l`. -/
def hasSub (pat : Str) : Str → Bool
  | [] => pat.isEmpty
  | l@(_ :: rest) => leadsWith pat l || hasSub pat rest

/-- Numeric value of a decimal digit character. -/
def digitVal (c : Char) : Nat := c.toNat - 48

/-- Value of a string of decimal digits. -/
def natOfDigits (l : Str) : Nat := l.foldl (fun n c => 10 * n + digitVal c) 0

/-- Python `int(s)`: optional surrounding whitespace, optional sign, decimal
digits. -/
def parseInt (t : Str) : Option ℤ :=
  let l := trim t
  let sd : ℤ × Str :=
    match l with
    | '-' :: rest => (-1, rest)
    | '+' :: rest => (1, rest)
    | _ => (1, l)
  if !sd.2.isEmpty && sd.2.all Char.isDigit then
    some (sd.1 * (natOfDigits sd.2 : ℤ))
  else none

/-- Python `float(s)` restricted to plain signed decimal literals: optional
surrounding whitespace, optional sign, digits with an optional decimal
point. -/
def parseFloat (t : Str) : Option ℚ :=
  let l := trim t
  let sd : ℚ × Str :=
    match l with
    | '-' :: rest => (-1, rest)
    | '+' :: rest => (1, rest)
    | _ => (1, l)
  match splitOnChar '.' sd.2 with
  | [ip] =>
    if !ip.isEmpty && ip.all Char.isDigit then
      some (sd.1 * (natOfDigits ip : ℚ))
    else none
  | [ip, fp] =>
    if (!ip.isEmpty || !fp.isEmpty) && ip.all Char.isDigit && fp.all Char.isDigit then
      some (sd.1 * ((natOfDigits ip : ℚ) + (natOfDigits fp : ℚ) / ((10 ^ fp.length : ℕ) : ℚ)))
    else none
  | _ => none

/-- Python `int(float(s))` truncates toward zero. -/
def truncQ (q : ℚ) : ℤ :=
  if q.num < 0 then -(((-q.num).toNat / q.den : ℕ) : ℤ) else ((q.num.toNat / q.den : ℕ) : ℤ)

theorem splitOnChar_ne_nil (c : Char) (l : Str) : splitOnChar c l ≠ [] := by
  induction l with
  | nil => simp [splitOnChar]
  | cons d rest ih =>
    simp only [splitOnChar]
    rcases hs : splitOnChar c rest with _ | ⟨x, t⟩
    · simp
    · dsimp only
      split <;> simp

theorem splitOnChar_of_not_mem (c : Char) (l : Str) (h : c ∉ l) : splitOnChar c l = [l] := by
  induction l with
  | nil => rfl
  | cons d rest ih =>
    simp only [List.mem_cons, not_or] at h
    simp only [splitOnChar, ih h.2]
    have : (d == c) = false := by
      simp only [beq_eq_false_iff_ne]
      exact fun hd => h.1 (hd ▸ rfl)
    simp [this]

theorem splitOnChar_append_cons (c : Char) (a b : Str) (h : c ∉ a) :
    splitOnChar c (a ++ c :: b) = a :: splitOnChar c b := by
  induction a with
  | nil =>
    simp only [List.nil_append, splitOnChar]
    cases hs : splitOnChar c b with
    | nil => exact absurd hs (splitOnChar_ne_nil c b)
    | cons x t => simp
  | cons d rest ih =>
    simp only [List.mem_cons, not_or] at h
    simp only [List.cons_append, splitOnChar, List.append_eq]
    rw [ih h.2]
    have : (d == c) = false := by
      simp only [beq_eq_false_iff_ne]
      exact fun hd => h.1 (hd ▸ rfl)
    simp [this]

theorem replaceGo_single_filter (c : Char) (fuel : Nat) (l : Str) (h : l.length ≤ fuel) :
    replaceGo [c] [] fuel l = l.filter (fun d => !(d == c)) := by
  induction fuel generalizing l with
  | zero =>
    cases l with
    | nil => rfl
    | cons d rest => simp at h
  | succ fuel ih =>
    cases l with
    | nil => rfl
    | cons d rest =>
      simp only [List.length_cons, Nat.succ_le_succ_iff] at h
      by_cases hc : c = d
      · subst hc
        have h1 : replaceGo [c] [] (fuel + 1) (c :: rest) = replaceGo [c] [] fuel rest := by
          simp [replaceGo, leadsWith]
        rw [h1, ih rest h]
        simp [List.filter_cons]
      · have hb : (c == d) = false := by simp [hc]
        have hb2 : (d == c) = false := by
          simp only [beq_eq_false_iff_ne]
          exact fun hd => hc (hd ▸ rfl)
        have h1 : replaceGo [c] [] (fuel + 1) (d :: rest) = d :: replaceGo [c] [] fuel rest := by
          simp [replaceGo, leadsWith, hb]
        rw [h1, ih rest h]
        simp [List.filter_cons, hb2]

theorem replaceAll_single_filter (c : Char) (l : Str) :
    replaceAll [c] [] l = l.filter (fun d => !(d == c)) :=
  replaceGo_single_filter c l.length l le_rfl

theorem not_mem_replaceAll_single (c : Char) (l : Str) : c ∉ replaceAll [c] [] l := by
  rw [replaceAll_single_filter]
  intro hmem
  have := List.mem_filter.mp hmem
  simp at this

theorem mem_trim (c : Char) (l : Str) (h : c ∈ trim l) : c ∈ l := by
  unfold trim at h
  rw [List.mem_reverse] at h
  have h2 := (List.dropWhile_suffix (l := (l.dropWhile Char.isWhitespace).reverse)
    Char.isWhitespace).sublist.mem h
  rw [List.mem_reverse] at h2
  exact (List.dropWhile_suffix Char.isWhitespace).sublist.mem h2

theorem hasSub_single_iff (c : Char) (l : Str) : hasSub [c] l = true ↔ c ∈ l := by
  induction l with
  | nil => simp [hasSub]
  | cons d rest ih =>
    simp only [hasSub, leadsWith, Bool.and_true, Bool.or_eq_true, ih, List.mem_cons]
    constructor
    · rintro (hb | hm)
      · exact Or.inl (eq_of_beq hb)
      · exact Or.inr hm
    · rintro (rfl | hm)
      · exact Or.inl (by simp)
      · exact Or.inr hm

/-! ## Python dictionaries as association lists -/

/-- Keys of an association list, in insertion order. -/
def keysA {β : Type} (m : List (Str × β)) : List Str := m.map Prod.fst

/-- First-match lookup. -/
def lookupA {β : Type} (m : List (Str × β)) (k : Str) : Option β :=
  (m.find? (fun p => p.1 == k)).map Prod.snd

/-- Python dict assignment `m[k] = v`: overwrite in place when the key is
present (a dict holds each key once, so replacing the first occurrence is
the dict update), append otherwise.  Insertion order is preserved, as for
Python dicts. -/
def upsertA {β : Type} : List (Str × β) → Str → β → List (Str × β)
  | [], k, v => [(k, v)]
  | p :: rest, k, v => if p.1 == k then (p.1, v) :: rest else p :: upsertA rest k v

/-- Apply a list of writes in order. -/
def applyWrites {β : Type} (m : List (Str × β)) (ws : List (Str × β)) : List (Str × β) :=
  ws.foldl (fun acc kv => upsertA acc kv.1 kv.2) m

/-- The last write carrying a given key, if any. -/
def lastWrite {β : Type} (ws : List (Str × β)) (k : Str) : Option β :=
  (ws.reverse.find? (fun p => p.1 == k)).map Prod.snd

theorem keysA_cons {β : Type} (p : Str × β) (rest : List (Str × β)) :
    keysA (p :: rest) = p.1 :: keysA rest := rfl

theorem keysA_upsertA {β : Type} (m : List (Str × β)) (k : Str) (v : β) :
    keysA (upsertA m k v) = if k ∈ keysA m then keysA m else keysA m ++ [k] := by
  induction m with
  | nil => simp [upsertA, keysA]
  | cons p rest ih =>
    simp only [upsertA]
    by_cases hp : (p.1 == k) = true
    · have hk : p.1 = k := eq_of_beq hp
      rw [if_pos hp, keysA_cons, keysA_cons, if_pos (by simp [hk.symm])]
    · have hne : p.1 ≠ k := by simpa using hp
      rw [if_neg (by simpa using hp), keysA_cons, keysA_cons, ih]
      by_cases hk : k ∈ keysA rest
      · rw [if_pos hk, if_pos (by simp [hk])]
      · rw [if_neg hk, if_neg (by
          simp only [List.mem_cons, not_or]
          exact ⟨fun h => hne h.symm, hk⟩), List.cons_append]

theorem nodup_keysA_upsertA {β : Type} (m : List (Str × β)) (k : Str) (v : β)
    (h : (keysA m).Nodup) : (keysA (upsertA m k v)).Nodup := by
  rw [keysA_upsertA]
  split
  · exact h
  · next hc =>
    rw [List.nodup_append]
    refine ⟨h, List.nodup_singleton k, ?_⟩
    intro a ha hb
    rw [List.mem_singleton] at hb
    subst hb
    exact hc ha

theorem lookupA_nil {β : Type} (x : Str) : lookupA ([] : List (Str × β)) x = none := rfl

theorem lookupA_cons {β : Type} (p : Str × β) (rest : List (Str × β)) (x : Str) :
    lookupA (p :: rest) x = if p.1 == x then some p.2 else lookupA rest x := by
  unfold lookupA
  rw [List.find?_cons]
  by_cases hp : (p.1 == x) = true
  · simp [hp]
  · simp only [Bool.not_eq_true] at hp
    simp [hp]

theorem lookupA_upsertA {β : Type} (m : List (Str × β)) (k : Str) (v : β) (x : Str) :
    lookupA (upsertA m k v) x = if x = k then some v else lookupA m x := by
  induction m with
  | nil =>
    by_cases hx : x = k
    · subst hx
      simp [upsertA, lookupA_cons]
    · have hkx : (k == x) = false := beq_eq_false_iff_ne.mpr (fun h => hx h.symm)
      simp [upsertA, lookupA_cons, lookupA_nil, hkx, hx]
  | cons p rest ih =>
    simp only [upsertA]
    by_cases hp : (p.1 == k) = true
    · have hpk : p.1 = k := eq_of_beq hp
      rw [if_pos hp]
      by_cases hx : x = k
      · subst hx
        simp [lookupA_cons, hpk]
      · have hkx : (k == x) = false := beq_eq_false_iff_ne.mpr (fun h => hx h.symm)
        simp [lookupA_cons, hpk, hkx, hx]
    · have hpk : p.1 ≠ k := by simpa using hp
      rw [if_neg (by simpa using hp), lookupA_cons, ih, lookupA_cons]
      by_cases hfirst : (p.1 == x) = true
      · have hpx : p.1 = x := eq_of_beq hfirst
        have hxk : ¬x = k := fun h => hpk (hpx.trans h)
        rw [if_pos hfirst, if_neg hxk, if_pos hfirst]
      · have hf : (p.1 == x) = false := by simpa using hfirst
        simp [hf]

theorem nodup_keysA_applyWrites {β : Type} (ws : List (Str × β)) (m : List (Str × β))
    (h : (keysA m).Nodup) : (keysA (applyWrites m ws)).Nodup := by
  induction ws generalizing m with
  | nil => exact h
  | cons w rest ih => exact ih _ (nodup_keysA_upsertA _ _ _ h)

theorem lookupA_applyWrites {β : Type} (ws : List (Str × β)) (m : List (Str × β)) (k : Str) :
    lookupA (applyWrites m ws) k = (lastWrite ws k).or (lookupA m k) := by
  induction ws generalizing m with
  | nil => simp [applyWrites, lastWrite]
  | cons w rest ih =>
    show lookupA (applyWrites (upsertA m w.1 w.2) rest) k = _
    rw [ih]
    unfold lastWrite
    rw [List.reverse_cons, List.find?_append]
    cases hf : (rest.reverse.find? (fun p => p.1 == k)) with
    | some p => simp [hf]
    | none =>
      simp only [hf, Option.map_none, Option.none_or]
      rw [lookupA_upsertA]
      by_cases hk : k = w.1
      · subst hk
        simp [List.find?_cons]
      · have : (w.1 == k) = false := by
          rw [beq_eq_false_iff_ne]
          exact fun hcon => hk (hcon ▸ rfl)
        simp [List.find?_cons, this, hk]

theorem applyWrites_append {β : Type} (m : List (Str × β)) (a b : List (Str × β)) :
    applyWrites m (a ++ b) = applyWrites (applyWrites m a) b := by
  unfold applyWrites
  rw [List.foldl_append]

/-! ## The common record shape and CSV model of merge.py -/

/-- The processor record each parser of `merge.py` builds (the `processor`
dict literal, lines 39-47 and analogues). -/
structure Record where
  tdp : ℚ
  manufacturer : Str
  model : Str
  n_cores : ℤ
  n_threads : ℤ
  tdp_per_core : ℚ
  tdp_per_thread : ℚ
  source : Str
deriving DecidableEq

abbrev Mapping := List (Str × Record)

/-- A `csv.DictReader` row: column name to cell contents. -/
abbrev Row := List (Str × Str)

/-- Cell of a row; `DictReader` supplies every field name of the file. -/
def rowGet (r : Row) (k : Str) : Str :=
  ((r.find? (fun p => p.1 == k)).map Prod.snd).getD []

/-- A CSV file as `csv.DictReader` sees it: the header row giving the field
names and the data rows. -/
structure CsvFile where
  fieldnames : List Str
  rows : List Row

/-- Result of processing one `DictReader` row inside the per-row `try`:
silently skipped (`continue`), a reported-and-skipped `ValueError`, or an
insertion `processors[model] = processor`. -/
inductive RowOutcome
  | skip
  | err
  | ok (key : Str) (rec : Record)
deriving DecidableEq

/-- The write performed by a row outcome, if any. -/
def outWrite : RowOutcome → Option (Str × Record)
  | .ok k r => some (k, r)
  | _ => none

/-- Effect of one row on the shared dict. -/
def stepOutcome (f : Row → RowOutcome) (m : Mapping) (row : Row) : Mapping :=
  match f row with
  | .ok k r => upsertA m k r
  | _ => m

/-- The sequence of writes a row list produces. -/
def writesOf (f : Row → RowOutcome) (rows : List Row) : List (Str × Record) :=
  rows.filterMap (fun r => outWrite (f r))

theorem foldl_stepOutcome (f : Row → RowOutcome) (m : Mapping) (rows : List Row) :
    rows.foldl (stepOutcome f) m = applyWrites m (writesOf f rows) := by
  induction rows generalizing m with
  | nil => rfl
  | cons r rest ih =>
    rw [List.foldl_cons]
    unfold stepOutcome writesOf
    cases hf : f r with
    | skip => simpa [writesOf, outWrite, hf] using ih m
    | err => simpa [writesOf, outWrite, hf] using ih m
    | ok k rec =>
      simp only [hf, List.filterMap_cons, outWrite]
      exact ih (upsertA m k rec)

/-- The required-header check each parser performs before reading rows. -/
def headersOk (req : List Str) (fns : List Str) : Bool :=
  req.all (fun h => fns.contains h)

/-- The repeated per-core / per-thread idiom
`tdp / n if n > 0 else 0` of merge.py. -/
def tdpPer (tdp : ℚ) (n : ℤ) : ℚ := if 0 < n then tdp / (n : ℚ) else 0

theorem tdpPer_pos (t : ℚ) (n : ℤ) (h : 0 < n) : tdpPer t n = t / (n : ℚ) := if_pos h

theorem tdpPer_zero (t : ℚ) (n : ℤ) (h : n = 0) : tdpPer t n = 0 := by
  subst h
  rfl

/-! ## String constants of merge.py -/

def hName : Str := "Name".data
def hDefaultTdp : Str := "Default TDP".data
def hCpuCores : Str := "# of CPU Cores".data
def hNThreads : Str := "# of Threads".data
def sAMD : Str := "AMD".data
def sTm : Str := "™".data
def sW : Str := "W".data
def sPlus : Str := "+".data
def sReg : Str := "®".data
def sIntel : Str := "Intel".data
def sAmpere : Str := "Ampere".data
def amdSourceUrl : Str := "https://www.amd.com/en/products/specifications/processors.html".data
def amdRequired : List Str := [hName, hDefaultTdp, hCpuCores, hNThreads]
def hAltraName : Str := "PRODUCT NAME".data
def hAltraCores : Str := "CORES".data
def hAltraPower : Str := "USAGE POWER (W)".data
def altraRequired : List Str := [hAltraName, hAltraCores, hAltraPower]
def altraModelPre : Str := "AmpereAltra ".data
def altraSourceUrl : Str := "https://amperecomputing.com/briefs/ampere-altra-family-product-brief".data
def hOneModel : Str := "Processor Model".data
def hOneCores : Str := "Core Count".data
def hOnePower : Str := "Usage Power*".data
def oneRequired : List Str := [hOneModel, hOneCores, hOnePower]
def oneSourceUrl : Str := "https://amperecomputing.com/briefs/ampereone-family-product-brief".data
def hGaModel : Str := "model".data
def hGaTdp : Str := "TDP".data
def hGaNCores : Str := "n_cores".data
def hGaTdpPerCore : Str := "TDP_per_core".data
def hGaSource : Str := "source".data
def hGaManufacturer : Str := "manufacturer".data
def hGaThreads : Str := "threads".data
def gaRequired : List Str :=
  [hGaModel, hGaTdp, hGaNCores, hGaTdpPerCore, hGaSource, hGaManufacturer, hGaThreads]

/-! ## The four DictReader-based parsers -/

/-- TDP-string handling of `read_and_process_amd` (merge.py lines 29-33):
a value containing a hyphen is split on it and the first two components are
averaged, otherwise the value is parsed as a plain float. -/
def amdParseTdp (t : Str) : Option ℚ :=
  if hasSub ['-'] t then
    match splitOnChar '-' t with
    | a :: b :: _ =>
      match parseFloat a, parseFloat b with
      | some x, some y => some ((x + y) / 2)
      | _, _ => none
    | _ => none
  else parseFloat t

/-- One row of the AMD CSV (merge.py lines 20-50). -/
def amdProcessRow (row : Row) : RowOutcome :=
  let model := trim (replaceAll sTm [] (replaceAll sAMD [] (rowGet row hName)))
  let tdp0 := replaceAll sPlus [] (replaceAll sW [] (trim (rowGet row hDefaultTdp)))
  let cores0 := trim (rowGet row hCpuCores)
  let threads0 := trim (rowGet row hNThreads)
  if cores0.isEmpty || threads0.isEmpty || tdp0.isEmpty then .skip
  else
    match amdParseTdp tdp0, parseInt cores0, parseInt threads0 with
    | some t, some c, some th =>
      .ok model
        { tdp := t, manufacturer := sAMD, model := model, n_cores := c, n_threads := th,
          tdp_per_core := tdpPer t c, tdp_per_thread := tdpPer t th, source := amdSourceUrl }
    | _, _, _ => .err

/-- `read_and_process_amd` (merge.py lines 4-54); `none` stands for a missing
file (`FileNotFoundError`, caught and reported), a failed header check is the
caught-and-reported `ValueError`; both leave the dict unchanged. -/
def read_and_process_amd (processors : Mapping) : Option CsvFile → Mapping
  | none => processors
  | some f =>
    if headersOk amdRequired f.fieldnames then
      f.rows.foldl (stepOutcome amdProcessRow) processors
    else processors

/-- One row of the Ampere Altra CSV (merge.py lines 72-92). -/
def altraProcessRow (row : Row) : RowOutcome :=
  match parseFloat (replaceAll sW [] (trim (rowGet row hAltraPower))),
      parseFloat (trim (rowGet row hAltraCores)) with
  | some t, some cq =>
    let c := truncQ cq
    let model := altraModelPre ++ trim (rowGet row hAltraName)
    .ok model
      { tdp := t, manufacturer := sAmpere, model := model, n_cores := c, n_threads := c,
        tdp_per_core := tdpPer t c, tdp_per_thread := tdpPer t c, source := altraSourceUrl }
  | _, _ => .err

/-- `read_and_process_ampere_altra` (merge.py lines 56-97). -/
def read_and_process_ampere_altra (processors : Mapping) : Option CsvFile → Mapping
  | none => processors
  | some f =>
    if headersOk altraRequired f.fieldnames then
      f.rows.foldl (stepOutcome altraProcessRow) processors
    else processors

/-- One row of the Ampere One CSV (merge.py lines 117-138). -/
def oneProcessRow (row : Row) : RowOutcome :=
  let model := trim (replaceAll sReg [] (rowGet row hOneModel))
  match parseFloat (replaceAll sW [] (trim (rowGet row hOnePower))),
      parseInt (trim (rowGet row hOneCores)) with
  | some t, some c =>
    .ok model
      { tdp := t, manufacturer := sAmpere, model := model, n_cores := c, n_threads := c,
        tdp_per_core := tdpPer t c, tdp_per_thread := tdpPer t c, source := oneSourceUrl }
  | _, _ => .err

/-- `read_and_process_ampere_one` (merge.py lines 101-142). -/
def read_and_process_ampere_one (processors : Mapping) : Option CsvFile → Mapping
  | none => processors
  | some f =>
    if headersOk oneRequired f.fieldnames then
      f.rows.foldl (stepOutcome oneProcessRow) processors
    else processors

/-- One row of the normalized Green-Algorithms CSV (merge.py lines 220-242). -/
def gaProcessRow (row : Row) : RowOutcome :=
  let model := trim (rowGet row hGaModel)
  let manu := trim (rowGet row hGaManufacturer)
  match parseFloat (replaceAll sW [] (trim (rowGet row hGaTdp))),
      parseFloat (trim (rowGet row hGaNCores)),
      parseInt (trim (rowGet row hGaThreads)) with
  | some t, some cq, some th =>
    let c := truncQ cq
    .ok model
      { tdp := t, manufacturer := manu, model := model, n_cores := c, n_threads := th,
        tdp_per_core := tdpPer t c, tdp_per_thread := tdpPer t th,
        source := trim (rowGet row hGaSource) }
  | _, _, _ => .err

/-- `read_and_process_green_algorithms` (merge.py lines 206-246). -/
def read_and_process_green_algorithms (processors : Mapping) : Option CsvFile → Mapping
  | none => processors
  | some f =>
    if headersOk gaRequired f.fieldnames then
      f.rows.foldl (stepOutcome gaProcessRow) processors
    else processors

/-! ## Write-sequence views of the four parsers -/

def amdWrites : Option CsvFile → List (Str × Record)
  | none => []
  | some f => if headersOk amdRequired f.fieldnames then writesOf amdProcessRow f.rows else []

def altraWrites : Option CsvFile → List (Str × Record)
  | none => []
  | some f => if headersOk altraRequired f.fieldnames then writesOf altraProcessRow f.rows else []

def oneWrites : Option CsvFile → List (Str × Record)
  | none => []
  | some f => if headersOk oneRequired f.fieldnames then writesOf oneProcessRow f.rows else []

def gaWrites : Option CsvFile → List (Str × Record)
  | none => []
  | some f => if headersOk gaRequired f.fieldnames then writesOf gaProcessRow f.rows else []

theorem amd_eq_applyWrites (m : Mapping) (inp : Option CsvFile) :
    read_and_process_amd m inp = applyWrites m (amdWrites inp) := by
  cases inp with
  | none => rfl
  | some f =>
    simp only [read_and_process_amd, amdWrites]
    by_cases h : headersOk amdRequired f.fieldnames = true
    · rw [if_pos h, if_pos h]
      exact foldl_stepOutcome _ _ _
    · rw [if_neg h, if_neg h]
      rfl

theorem altra_eq_applyWrites (m : Mapping) (inp : Option CsvFile) :
    read_and_process_ampere_altra m inp = applyWrites m (altraWrites inp) := by
  cases inp with
  | none => rfl
  | some f =>
    simp only [read_and_process_ampere_altra, altraWrites]
    by_cases h : headersOk altraRequired f.fieldnames = true
    · rw [if_pos h, if_pos h]
      exact foldl_stepOutcome _ _ _
    · rw [if_neg h, if_neg h]
      rfl

theorem one_eq_applyWrites (m : Mapping) (inp : Option CsvFile) :
    read_and_process_ampere_one m inp = applyWrites m (oneWrites inp) := by
  cases inp with
  | none => rfl
  | some f =>
    simp only [read_and_process_ampere_one, oneWrites]
    by_cases h : headersOk oneRequired f.fieldnames = true
    · rw [if_pos h, if_pos h]
      exact foldl_stepOutcome _ _ _
    · rw [if_neg h, if_neg h]
      rfl

theorem ga_eq_applyWrites (m : Mapping) (inp : Option CsvFile) :
    read_and_process_green_algorithms m inp = applyWrites m (gaWrites inp) := by
  cases inp with
  | none => rfl
  | some f =>
    simp only [read_and_process_green_algorithms, gaWrites]
    by_cases h : headersOk gaRequired f.fieldnames = true
    · rw [if_pos h, if_pos h]
      exact foldl_stepOutcome _ _ _
    · rw [if_neg h, if_neg h]
      rfl

/-! ## The Intel directory parser

`read_and_process_intel` (merge.py lines 145-204) reads every file of a
directory as a transposed table: two preamble rows, a row of processor names,
then labelled attribute rows.  Unlike the other four parsers it has no
`try`/`except` whatsoever, so every failure is an uncaught exception that
terminates the run; the partially updated dict at that point is never
observed (the output file is written only after all parsers finish), so the
embedding returns only the error. -/

/-- One export file of the Intel directory, as plain `csv.reader` rows. -/
structure IntelFile where
  rows : List (List Str)

/-- The attribute dict `processor_data[name]` of one processor column. -/
abbrev Details := List (Str × Str)

def sProductCollection : Str := "Product Collection".data
def sTotalCores : Str := "Total Cores".data
def sTotalThreads : Str := "Total Threads".data
def sTDP : Str := "TDP".data
def sPBP : Str := "Processor Base Power".data
def sProcessorName : Str := "Processor Name".data
def intelLabels : List Str := [sProductCollection, sTotalCores, sTotalThreads, sTDP, sPBP]
def intelSourceUrl : Str :=
  "https://www.intel.com/content/www/us/en/products/details/processors.html".data
def errFileNotFound : Str := "FileNotFoundError".data
def errStopIteration : Str := "StopIteration".data
def errIndex : Str := "IndexError".data
def errName : Str := "NameError".data
def errValue : Str := "ValueError".data
def errKey : Str := "KeyError".data

/-- `for name in processor_names: processor_data[name] = {}` (line 164-165). -/
def initData (names : List Str) : List (Str × Details) :=
  names.foldl (fun d n => upsertA d n []) []

/-- `processor_data[n][k] = v` for the (unique) entry with key `n`. -/
def setDetail (data : List (Str × Details)) (n k v : Str) : List (Str × Details) :=
  data.map (fun p => if p.1 == n then (p.1, upsertA p.2 k v) else p)

/-- `for i, value in enumerate(row[1:]): processor_data[processor_names[i]][key] = value`
(lines 172-173); a value without a matching processor name is an uncaught
`IndexError`. -/
def assignAttrRow (names : List Str) (key : Str) (vals : List Str)
    (data : List (Str × Details)) : Except Str (List (Str × Details)) :=
  if vals.length ≤ names.length then
    .ok ((names.zip vals).foldl (fun d nv => setDetail d nv.1 key nv.2) data)
  else .error errIndex

/-- The attribute-row loop (lines 168-173): only rows whose first cell is one
of the five known labels are stored. -/
def buildData (names : List Str) :
    List (List Str) → List (Str × Details) → Except Str (List (Str × Details))
  | [], data => .ok data
  | row :: rest, data =>
    match row with
    | [] => buildData names rest data
    | key :: vals =>
      if intelLabels.contains key then
        match assignAttrRow names key vals data with
        | .error e => .error e
        | .ok data2 => buildData names rest data2
      else buildData names rest data

/-- `processor_data[name]["Processor Name"] = name` (lines 176-177). -/
def addProcessorNames (names : List Str) (data : List (Str × Details)) :
    List (Str × Details) :=
  names.foldl (fun d n => setDetail d n sProcessorName n) data

/-- Value held by the loop variable `tdp` at the top of a processor
iteration.  The variable is function-scoped in the source, so its value
leaks from one processor (and one file) to the next: after a processed
record it holds a float, after the empty-string `continue` it holds the
string `""`, and before any assignment it is unbound (`none`, an uncaught
`NameError` when read). -/
inductive PyTdp
  | strv (t : Str)
  | fltv (q : ℚ)
deriving DecidableEq

/-- Lines 188-204 of merge.py once the processor has a usable TDP float:
build the record and insert it. -/
def intelFinish (q : ℚ) (name : Str) (details : Details) :
    Except Str (Option PyTdp × Option (Str × Record)) :=
  let model := trim (replaceAll sReg [] (replaceAll sIntel [] name))
  match lookupA details sTotalCores with
  | none => .error errKey
  | some cs =>
    match parseInt (trim cs) with
    | none => .error errValue
    | some c =>
      match lookupA details sTotalThreads with
      | none => .error errKey
      | some ts =>
        match parseInt (trim ts) with
        | none => .error errValue
        | some th =>
          .ok (some (.fltv q), some (model,
            { tdp := q, manufacturer := sIntel, model := model, n_cores := c, n_threads := th,
              tdp_per_core := tdpPer q c, tdp_per_thread := tdpPer q th,
              source := intelSourceUrl }))

/-- One iteration of the processor loop (lines 180-204): resolve the `tdp`
variable from `TDP`, else `Processor Base Power`, else its leftover value;
skip on the empty string; otherwise parse and build the record.  Returns the
new value of the `tdp` variable and the insertion performed, or the uncaught
exception. -/
def intelProcStep (carry : Option PyTdp) (name : Str) (details : Details) :
    Except Str (Option PyTdp × Option (Str × Record)) :=
  let v : Except Str PyTdp :=
    match lookupA details sTDP with
    | some t => .ok (.strv (replaceAll sW [] (trim t)))
    | none =>
      match lookupA details sPBP with
      | some t => .ok (.strv (replaceAll sW [] (trim t)))
      | none =>
        match carry with
        | none => .error errName
        | some v0 => .ok v0
  match v with
  | .error e => .error e
  | .ok (.strv t) =>
    if t.isEmpty then .ok (some (.strv t), none)
    else
      match parseFloat t with
      | none => .error errValue
      | some q => intelFinish q name details
  | .ok (.fltv q) => intelFinish q name details

/-- The processor loop threading the `tdp` variable and the shared dict. -/
def intelProcLoop (carry : Option PyTdp) (m : Mapping) :
    List (Str × Details) → Except Str (Option PyTdp × Mapping)
  | [] => .ok (carry, m)
  | (name, details) :: rest =>
    match intelProcStep carry name details with
    | .error e => .error e
    | .ok (c2, none) => intelProcLoop c2 m rest
    | .ok (c2, some kv) => intelProcLoop c2 (upsertA m kv.1 kv.2) rest

/-- Processing of one export file (lines 146-204): fewer than three rows is
an uncaught `StopIteration` from the `next` calls; the processor names are
the third row without its first cell. -/
def intelFileStep (carry : Option PyTdp) (m : Mapping) (f : IntelFile) :
    Except Str (Option PyTdp × Mapping) :=
  match f.rows with
  | _ :: _ :: r3 :: rest =>
    let names := r3.drop 1
    match buildData names rest (initData names) with
    | .error e => .error e
    | .ok data => intelProcLoop carry m (addProcessorNames names data)
  | _ => .error errStopIteration

/-- The `for file in os.listdir(root_dir)` loop. -/
def intelFilesLoop (carry : Option PyTdp) (m : Mapping) :
    List IntelFile → Except Str (Option PyTdp × Mapping)
  | [] => .ok (carry, m)
  | f :: fs =>
    match intelFileStep carry m f with
    | .error e => .error e
    | .ok (c2, m2) => intelFilesLoop c2 m2 fs

/-- `read_and_process_intel` (merge.py lines 145-204); `none` stands for a
missing directory: `os.listdir` raises `FileNotFoundError`, which nothing
catches. -/
def read_and_process_intel (processors : Mapping) :
    Option (List IntelFile) → Except Str Mapping
  | none => .error errFileNotFound
  | some files =>
    match intelFilesLoop none processors files with
    | .error e => .error e
    | .ok cm => .ok cm.2

/-! ## Write-sequence view of the Intel parser -/

def intelProcWrites (carry : Option PyTdp) :
    List (Str × Details) → Except Str (Option PyTdp × List (Str × Record))
  | [] => .ok (carry, [])
  | (name, details) :: rest =>
    match intelProcStep carry name details with
    | .error e => .error e
    | .ok (c2, none) => intelProcWrites c2 rest
    | .ok (c2, some kv) =>
      match intelProcWrites c2 rest with
      | .error e => .error e
      | .ok (c3, ws) => .ok (c3, kv :: ws)

def intelFileWrites (carry : Option PyTdp) (f : IntelFile) :
    Except Str (Option PyTdp × List (Str × Record)) :=
  match f.rows with
  | _ :: _ :: r3 :: rest =>
    let names := r3.drop 1
    match buildData names rest (initData names) with
    | .error e => .error e
    | .ok data => intelProcWrites carry (addProcessorNames names data)
  | _ => .error errStopIteration

def intelFilesWrites (carry : Option PyTdp) :
    List IntelFile → Except Str (Option PyTdp × List (Str × Record))
  | [] => .ok (carry, [])
  | f :: fs =>
    match intelFileWrites carry f with
    | .error e => .error e
    | .ok (c2, ws) =>
      match intelFilesWrites c2 fs with
      | .error e => .error e
      | .ok (c3, ws2) => .ok (c3, ws ++ ws2)

def intelWrites : Option (List IntelFile) → Except Str (List (Str × Record))
  | none => .error errFileNotFound
  | some files =>
    match intelFilesWrites none files with
    | .error e => .error e
    | .ok cw => .ok cw.2

theorem intelProcLoop_eq (procs : List (Str × Details)) (carry : Option PyTdp) (m : Mapping) :
    intelProcLoop carry m procs =
      (intelProcWrites carry procs).map (fun cw => (cw.1, applyWrites m cw.2)) := by
  induction procs generalizing carry m with
  | nil => rfl
  | cons p rest ih =>
    obtain ⟨name, details⟩ := p
    simp only [intelProcLoop, intelProcWrites]
    cases hs : intelProcStep carry name details with
    | error e => rfl
    | ok cr =>
      obtain ⟨c2, w⟩ := cr
      cases w with
      | none => exact ih c2 m
      | some kv =>
        cases hw : intelProcWrites c2 rest with
        | error e =>
          dsimp only
          rw [ih c2 (upsertA m kv.1 kv.2), hw]
          rfl
        | ok cw =>
          obtain ⟨c3, ws⟩ := cw
          dsimp only
          rw [ih c2 (upsertA m kv.1 kv.2), hw]
          rfl

theorem intelFileStep_eq (f : IntelFile) (carry : Option PyTdp) (m : Mapping) :
    intelFileStep carry m f =
      (intelFileWrites carry f).map (fun cw => (cw.1, applyWrites m cw.2)) := by
  unfold intelFileStep intelFileWrites
  match f.rows with
  | [] => rfl
  | [_] => rfl
  | [_, _] => rfl
  | _ :: _ :: r3 :: rest =>
    dsimp only
    cases hb : buildData (List.drop 1 r3) rest (initData (List.drop 1 r3)) with
    | error e => rfl
    | ok data => exact intelProcLoop_eq _ carry m

theorem intelFilesLoop_eq (files : List IntelFile) (carry : Option PyTdp) (m : Mapping) :
    intelFilesLoop carry m files =
      (intelFilesWrites carry files).map (fun cw => (cw.1, applyWrites m cw.2)) := by
  induction files generalizing carry m with
  | nil => rfl
  | cons f fs ih =>
    simp only [intelFilesLoop, intelFilesWrites, intelFileStep_eq f carry m]
    cases hw : intelFileWrites carry f with
    | error e => rfl
    | ok cw =>
      obtain ⟨c2, ws⟩ := cw
      simp only [Except.map]
      rw [ih c2 (applyWrites m ws)]
      cases hw2 : intelFilesWrites c2 fs with
      | error e => rfl
      | ok cw2 =>
        obtain ⟨c3, ws2⟩ := cw2
        simp only [Except.map, applyWrites_append]

theorem intel_eq_applyWrites (m : Mapping) (inp : Option (List IntelFile)) :
    read_and_process_intel m inp = (intelWrites inp).map (fun ws => applyWrites m ws) := by
  cases inp with
  | none => rfl
  | some files =>
    simp only [read_and_process_intel, intelWrites, intelFilesLoop_eq files none m]
    cases hw : intelFilesWrites none files with
    | error e => rfl
    | ok cw => rfl

/-! ## The module-level pipeline of merge.py -/

/-- The input files of one merge.py run; `none` is a missing file or
directory. -/
structure Inputs where
  amd : Option CsvFile
  altra : Option CsvFile
  one : Option CsvFile
  intel : Option (List IntelFile)
  ga : Option CsvFile

/-- Lines 250-256 of merge.py: the five parsers run in the fixed order AMD,
Ampere Altra, Ampere One, Intel, Green-Algorithms against the one shared
dict; an uncaught exception in the Intel parser terminates the run before
the last parser and the output write. -/
def mergePipeline (i : Inputs) : Except Str Mapping :=
  let m1 := read_and_process_amd [] i.amd
  let m2 := read_and_process_ampere_altra m1 i.altra
  let m3 := read_and_process_ampere_one m2 i.one
  match read_and_process_intel m3 i.intel with
  | .error e => .error e
  | .ok m4 => .ok (read_and_process_green_algorithms m4 i.ga)

/-- The writes of a whole run, concatenated in the order the sources are
processed. -/
def allWrites (i : Inputs) : Except Str (List (Str × Record)) :=
  match intelWrites i.intel with
  | .error e => .error e
  | .ok iws =>
    .ok (amdWrites i.amd ++ altraWrites i.altra ++ oneWrites i.one ++ iws ++ gaWrites i.ga)

/-! ## The Green-Algorithms normalizer (pre_process.py) -/

/-- A data row of the Green-Algorithms dataset as pandas reads it with
`skiprows=1`: the `model` cell plus the remaining cells of the row. -/
structure GARow where
  model : Str
  rest : List Str
deriving DecidableEq

/-- An output row of pre_process.py: the cleaned model, the untouched other
cells, and the two added columns. -/
structure GAOutRow where
  model : Str
  rest : List Str
  manufacturer : Str
  threads : ℤ
deriving DecidableEq

def sAny : Str := "Any".data
def sXeon : Str := "Xeon".data
def sCore : Str := "Core".data

/-- The hardcoded AMD thread-count table (pre_process.py lines 12-36). -/
def amd_cpus_threads : List (Str × ℤ) :=
  [("A8-7680".data, 4), ("A9-9425 SoC".data, 2), ("7552".data, 96), ("EPYC 7251".data, 16),
   ("Athlon 3000G".data, 4), ("FX-6300".data, 6), ("FX-8350".data, 8),
   ("Ryzen 3 2200G".data, 4), ("Ryzen 3 3200G".data, 4), ("Ryzen 3 3200U".data, 4),
   ("Ryzen 5 1600".data, 12), ("Ryzen 5 2600".data, 12), ("Ryzen 5 3400G".data, 8),
   ("Ryzen 5 3500U".data, 8), ("Ryzen 5 3600".data, 12), ("Ryzen 5 3600X".data, 12),
   ("Ryzen 7 2700X".data, 16), ("Ryzen 7 3700X".data, 16), ("Ryzen 7 3800X".data, 16),
   ("Ryzen 9 3900X".data, 24), ("Ryzen 9 3950X".data, 32),
   ("Ryzen Threadripper 2990WX".data, 64), ("Ryzen Threadripper 3990X".data, 128)]

/-- The hardcoded Intel thread-count table (pre_process.py lines 38-94). -/
def intel_cpus_threads : List (Str × ℤ) :=
  [("Core 2 Quad Q6600".data, 4), ("Core i3-10100".data, 8), ("Core i3-10300".data, 8),
   ("Core i3-10320".data, 8), ("Core i3-10350K".data, 8), ("Core i3-9100".data, 4),
   ("Core i3-9100F".data, 4), ("Core i5-10400".data, 12), ("Core i5-10400F".data, 12),
   ("Core i5-10500".data, 12), ("Core i5-10600".data, 12), ("Core i5-10600K".data, 12),
   ("Core i5-3570K".data, 4), ("Core i5-4460".data, 4), ("Core i5-9400".data, 6),
   ("Core i5-9400F".data, 6), ("Core i5-9600KF".data, 6), ("Core i7-10700".data, 16),
   ("Core i7-10700K".data, 16), ("Core i7-4930K".data, 12), ("Core i7-6700K".data, 8),
   ("Core i7-8700K".data, 12), ("Core i7-9700F".data, 8), ("Core i7-9700K".data, 8),
   ("Core i9-10900K".data, 20), ("Core i9-10900KF".data, 20), ("Core i9-10900XE".data, 20),
   ("Core i9-10920XE".data, 24), ("Core i9-9900K".data, 16), ("Xeon E5-2660 v3".data, 20),
   ("Xeon E5-2665".data, 16), ("Xeon E5-2670".data, 16), ("Xeon E5-2670 v2".data, 20),
   ("Xeon E5-2680 v3".data, 24), ("Xeon E5-2683 v4".data, 32), ("Xeon E5-2690 v2".data, 20),
   ("Xeon E5-2690 v3".data, 24), ("Xeon E5-2695 v4".data, 36), ("Xeon E5-2697 v4".data, 36),
   ("Xeon E5-2699 v3".data, 36), ("Xeon E5-2699 v4".data, 44), ("Xeon E5-4610 v4".data, 20),
   ("Xeon E5-4620".data, 16), ("Xeon E5-4650L".data, 16), ("Xeon E7-8867 v3".data, 32),
   ("Xeon E7-8880 v4".data, 44), ("Xeon Gold 6142".data, 32), ("Xeon Gold 6148".data, 40),
   ("Xeon Gold 6248".data, 40), ("Xeon Gold 6252".data, 48), ("Xeon L5640".data, 12),
   ("Xeon Phi 5110P".data, 240), ("Xeon Platinum 9282".data, 112), ("Xeon X3430".data, 4),
   ("Xeon X5660".data, 12)]

/-- `all_cpus_threads = amd_cpus_threads | intel_cpus_threads` (line 96):
dict union, entries of the right operand overwriting the left. -/
def all_cpus_threads : List (Str × ℤ) :=
  intel_cpus_threads.foldl (fun d kv => upsertA d kv.1 kv.2) amd_cpus_threads

/-- Manufacturer inference (pre_process.py line 10), applied to the original
model name. -/
def inferManufacturer (model : Str) : Str :=
  if hasSub sXeon model || hasSub sCore model then sIntel else sAMD

/-- Model cleanup (pre_process.py line 97). -/
def cleanModel (model : Str) : Str := trim (replaceAll sAMD [] model)

/-- The thread lookup of pre_process.py line 98; `none` is an uncaught
`KeyError`. -/
def gaThreads (model : Str) : Option ℤ := lookupA all_cpus_threads model

/-- Row-by-row processing of the kept rows, failing at the first model
missing from the merged table, as the pandas `apply` on line 98 does. -/
def preProcessRows : List GARow → Except Str (List GAOutRow)
  | [] => .ok []
  | r :: rest =>
    match gaThreads (cleanModel r.model) with
    | none => .error errKey
    | some t =>
      match preProcessRows rest with
      | .error e => .error e
      | .ok out =>
        .ok ({ model := cleanModel r.model, rest := r.rest,
               manufacturer := inferManufacturer r.model, threads := t } :: out)

/-- `pre_process.py` as a whole: drop the sentinel `Any` row, infer the
manufacturer from the original model name, strip `"AMD"` and surrounding
whitespace from the model, and attach the thread count from the merged
fixed tables.  An `Except.error` is the uncaught `KeyError`, which
terminates the script before `to_csv` writes the output file; `Except.ok`
is the list of rows written to the augmented CSV. -/
def pre_process (rows : List GARow) : Except Str (List GAOutRow) :=
  preProcessRows (rows.filter (fun r => !(r.model == sAny)))

/-! ## Serialization of the final mapping (merge.py lines 258-262) -/

def digitChar (d : ℕ) : Char :=
  match d with
  | 0 => '0'
  | 1 => '1'
  | 2 => '2'
  | 3 => '3'
  | 4 => '4'
  | 5 => '5'
  | 6 => '6'
  | 7 => '7'
  | 8 => '8'
  | 9 => '9'
  | _ => '0'

/-- Decimal digits of a natural number; fuel bounded by the number itself
suffices since `n / 10 < n` for `n ≥ 10`. -/
def natDigitsGo : ℕ → ℕ → Str
  | 0, n => [digitChar n]
  | fuel + 1, n =>
    if n < 10 then [digitChar n] else natDigitsGo fuel (n / 10) ++ [digitChar (n % 10)]

def natDigits (n : ℕ) : Str := natDigitsGo n n

def intStr (z : ℤ) : Str := if z < 0 then '-' :: natDigits z.natAbs else natDigits z.natAbs

/-- Rendering of a Python float value for the output file, written as the
exact rational `num/den`.  The claims about the output concern its line and
column structure, which does not depend on the digits Python prints for a
float. -/
def ratStr (q : ℚ) : Str := intStr q.num ++ '/' :: natDigits q.den

def outPreamble : Str := "index,in Watt,,,".data
def outHeader : Str := "model,TDP,n_cores,TDP_per_core,source".data

/-- One output line (merge.py line 262): the f-string joins model, tdp,
n_cores, tdp_per_core and source with commas, with no quoting or escaping. -/
def renderRecord (r : Record) : Str :=
  r.model ++ ',' :: (ratStr r.tdp ++ ',' :: (intStr r.n_cores ++ ',' ::
    (ratStr r.tdp_per_core ++ ',' :: r.source)))

/-- The final file contents (merge.py lines 258-262): the preamble line with
its trailing newline, the header line, then `"\n" + line` for every record
of the dict in insertion order. -/
def serializeOutput (records : List Record) : Str :=
  outPreamble ++ '\n' :: (outHeader ++ (records.map (fun r => '\n' :: renderRecord r)).flatten)

/-- Splitting the file contents into lines. -/
def linesOf (l : Str) : List Str := splitOnChar '\n' l

/-! ## Supporting lemmas for the serializer -/

theorem digitChar_ne_newline (d : ℕ) : digitChar d ≠ '\n' := by
  unfold digitChar
  split <;> decide

theorem natDigitsGo_ne_newline (fuel n : ℕ) : '\n' ∉ natDigitsGo fuel n := by
  induction fuel generalizing n with
  | zero =>
    intro h
    simp only [natDigitsGo, List.mem_singleton] at h
    exact digitChar_ne_newline n h.symm
  | succ fuel ih =>
    intro h
    simp only [natDigitsGo] at h
    split at h
    · simp only [List.mem_singleton] at h
      exact digitChar_ne_newline n h.symm
    · rw [List.mem_append] at h
      rcases h with h | h
      · exact ih _ h
      · simp only [List.mem_singleton] at h
        exact digitChar_ne_newline _ h.symm

theorem natDigits_ne_newline (n : ℕ) : '\n' ∉ natDigits n := natDigitsGo_ne_newline n n

theorem intStr_ne_newline (z : ℤ) : '\n' ∉ intStr z := by
  unfold intStr
  split
  · intro h
    rcases List.mem_cons.mp h with h | h
    · exact absurd h (by decide)
    · exact natDigits_ne_newline _ h
  · exact natDigits_ne_newline _

theorem ratStr_ne_newline (q : ℚ) : '\n' ∉ ratStr q := by
  unfold ratStr
  intro h
  rcases List.mem_append.mp h with h | h
  · exact intStr_ne_newline _ h
  · rcases List.mem_cons.mp h with h | h
    · exact absurd h (by decide)
    · exact natDigits_ne_newline _ h

theorem renderRecord_ne_newline (r : Record) (hm : '\n' ∉ r.model) (hs : '\n' ∉ r.source) :
    '\n' ∉ renderRecord r := by
  unfold renderRecord
  intro h
  rcases List.mem_append.mp h with h | h
  · exact hm h
  rcases List.mem_cons.mp h with h | h
  · exact absurd h (by decide)
  rcases List.mem_append.mp h with h | h
  · exact ratStr_ne_newline _ h
  rcases List.mem_cons.mp h with h | h
  · exact absurd h (by decide)
  rcases List.mem_append.mp h with h | h
  · exact intStr_ne_newline _ h
  rcases List.mem_cons.mp h with h | h
  · exact absurd h (by decide)
  rcases List.mem_append.mp h with h | h
  · exact ratStr_ne_newline _ h
  rcases List.mem_cons.mp h with h | h
  · exact absurd h (by decide)
  · exact hs h

theorem linesOf_append_newline (a b : Str) (h : '\n' ∉ a) :
    linesOf (a ++ '\n' :: b) = a :: linesOf b := splitOnChar_append_cons '\n' a b h

theorem linesOf_of_no_newline (a : Str) (h : '\n' ∉ a) : linesOf a = [a] :=
  splitOnChar_of_not_mem '\n' a h

theorem linesOf_flatten (rs : List Record) (x : Str) (hx : '\n' ∉ x)
    (hr : ∀ r ∈ rs, '\n' ∉ r.model ∧ '\n' ∉ r.source) :
    linesOf (x ++ (rs.map (fun r => '\n' :: renderRecord r)).flatten) =
      x :: rs.map renderRecord := by
  induction rs generalizing x with
  | nil => simpa using linesOf_of_no_newline x hx
  | cons r rest ih =>
    simp only [List.map_cons, List.flatten_cons]
    rw [show ('\n' :: renderRecord r) ++ (rest.map (fun s => '\n' :: renderRecord s)).flatten =
      '\n' :: (renderRecord r ++ (rest.map (fun s => '\n' :: renderRecord s)).flatten) from
      List.cons_append _ _ _]
    rw [linesOf_append_newline x _ hx]
    have hrm := hr r (by simp)
    rw [ih (renderRecord r) (renderRecord_ne_newline r hrm.1 hrm.2)
      (fun r2 h2 => hr r2 (by simp [h2]))]

/-! ## Shape of the records each parser inserts -/

theorem amdProcessRow_ok_shape (row : Row) (k : Str) (r : Record)
    (h : amdProcessRow row = .ok k r) :
    k = r.model ∧
    r.model = trim (replaceAll sTm [] (replaceAll sAMD [] (rowGet row hName))) ∧
    r.tdp_per_core = tdpPer r.tdp r.n_cores ∧
    r.tdp_per_thread = tdpPer r.tdp r.n_threads := by
  dsimp only [amdProcessRow] at h
  split at h
  · exact absurd h (by simp)
  · split at h
    · injection h with h1 h2
      subst h2
      subst h1
      exact ⟨rfl, rfl, rfl, rfl⟩
    · exact absurd h (by simp)

theorem altraProcessRow_ok_shape (row : Row) (k : Str) (r : Record)
    (h : altraProcessRow row = .ok k r) :
    k = r.model ∧
    r.model = altraModelPre ++ trim (rowGet row hAltraName) ∧
    r.tdp_per_core = tdpPer r.tdp r.n_cores ∧
    r.tdp_per_thread = tdpPer r.tdp r.n_threads := by
  dsimp only [altraProcessRow] at h
  split at h
  · injection h with h1 h2
    subst h2
    subst h1
    exact ⟨rfl, rfl, rfl, rfl⟩
  · exact absurd h (by simp)

theorem oneProcessRow_ok_shape (row : Row) (k : Str) (r : Record)
    (h : oneProcessRow row = .ok k r) :
    k = r.model ∧
    r.model = trim (replaceAll sReg [] (rowGet row hOneModel)) ∧
    r.tdp_per_core = tdpPer r.tdp r.n_cores ∧
    r.tdp_per_thread = tdpPer r.tdp r.n_threads := by
  dsimp only [oneProcessRow] at h
  split at h
  · injection h with h1 h2
    subst h2
    subst h1
    exact ⟨rfl, rfl, rfl, rfl⟩
  · exact absurd h (by simp)

theorem gaProcessRow_ok_shape (row : Row) (k : Str) (r : Record)
    (h : gaProcessRow row = .ok k r) :
    k = r.model ∧
    r.model = trim (rowGet row hGaModel) ∧
    r.tdp_per_core = tdpPer r.tdp r.n_cores ∧
    r.tdp_per_thread = tdpPer r.tdp r.n_threads := by
  dsimp only [gaProcessRow] at h
  split at h
  · injection h with h1 h2
    subst h2
    subst h1
    exact ⟨rfl, rfl, rfl, rfl⟩
  · exact absurd h (by simp)

theorem intelFinish_ok_shape (q : ℚ) (name : Str) (details : Details)
    (c2 : Option PyTdp) (w : Str × Record)
    (h : intelFinish q name details = .ok (c2, some w)) :
    w.1 = w.2.model ∧
    w.2.model = trim (replaceAll sReg [] (replaceAll sIntel [] name)) ∧
    w.2.tdp_per_core = tdpPer w.2.tdp w.2.n_cores ∧
    w.2.tdp_per_thread = tdpPer w.2.tdp w.2.n_threads := by
  dsimp only [intelFinish] at h
  split at h
  · exact absurd h (by simp)
  split at h
  · exact absurd h (by simp)
  split at h
  · exact absurd h (by simp)
  split at h
  · exact absurd h (by simp)
  · injection h with h1
    rw [Prod.mk.injEq] at h1
    obtain ⟨h2, h3⟩ := h1
    injection h3 with h4
    subst h4
    exact ⟨rfl, rfl, rfl, rfl⟩

theorem intelProcStep_ok_shape (carry : Option PyTdp) (name : Str) (details : Details)
    (c2 : Option PyTdp) (w : Str × Record)
    (h : intelProcStep carry name details = .ok (c2, some w)) :
    w.1 = w.2.model ∧
    w.2.model = trim (replaceAll sReg [] (replaceAll sIntel [] name)) ∧
    w.2.tdp_per_core = tdpPer w.2.tdp w.2.n_cores ∧
    w.2.tdp_per_thread = tdpPer w.2.tdp w.2.n_threads := by
  dsimp only [intelProcStep] at h
  split at h
  · exact absurd h (by simp)
  · next hv =>
    split at h
    · exact absurd h (by simp)
    · split at h
      · exact absurd h (by simp)
      · exact intelFinish_ok_shape _ _ _ _ _ h
  · next hv => exact intelFinish_ok_shape _ _ _ _ _ h

/-! ## Claim C8: the normalizer fails iff a cleaned model is missing -/

/-- The output row pre_process.py builds for one kept input row. -/
def gaAugment (r : GARow) : GAOutRow :=
  { model := cleanModel r.model, rest := r.rest,
    manufacturer := inferManufacturer r.model,
    threads := (gaThreads (cleanModel r.model)).getD 0 }

theorem preProcessRows_spec (l : List GARow) :
    ((∃ out, preProcessRows l = Except.ok out) ↔
      ∀ r ∈ l, (gaThreads (cleanModel r.model)).isSome = true) ∧
    (∀ out, preProcessRows l = Except.ok out → out = l.map gaAugment) := by
  induction l with
  | nil =>
    constructor
    · constructor
      · intro _ r hr
        simp at hr
      · intro _
        exact ⟨[], rfl⟩
    · intro out h
      simp only [preProcessRows] at h
      injection h with h2
      rw [← h2]
      rfl
  | cons r rest ih =>
    cases hg : gaThreads (cleanModel r.model) with
    | none =>
      refine ⟨⟨?_, ?_⟩, ?_⟩
      · rintro ⟨out, hout⟩
        simp only [preProcessRows, hg] at hout
        exact Except.noConfusion hout
      · intro hall
        have := hall r (by simp)
        rw [hg] at this
        simp at this
      · intro out h
        simp only [preProcessRows, hg] at h
        exact Except.noConfusion h
    | some t =>
      cases hrest : preProcessRows rest with
      | error e =>
        refine ⟨⟨?_, ?_⟩, ?_⟩
        · rintro ⟨out, hout⟩
          simp only [preProcessRows, hg, hrest] at hout
          exact Except.noConfusion hout
        · intro hall
          obtain ⟨out, hout⟩ := ih.1.mpr (fun r2 h2 => hall r2 (by simp [h2]))
          rw [hrest] at hout
          exact absurd hout (by simp)
        · intro out h
          simp only [preProcessRows, hg, hrest] at h
          exact Except.noConfusion h
      | ok outr =>
        refine ⟨⟨?_, ?_⟩, ?_⟩
        · intro _ r2 hr2
          rcases List.mem_cons.mp hr2 with h2 | h2
          · subst h2
            rw [hg]
            rfl
          · exact (ih.1.mp ⟨outr, hrest⟩) r2 h2
        · intro _
          cases hall : preProcessRows (r :: rest) with
          | error e =>
            simp only [preProcessRows, hg, hrest] at hall
            exact Except.noConfusion hall
          | ok o => exact ⟨o, rfl⟩
        · intro out h
          simp only [preProcessRows, hg, hrest] at h
          injection h with h2
          rw [← h2, List.map_cons]
          congr 1
          · unfold gaAugment
            rw [hg, Option.getD_some]
          · exact ih.2 outr hrest

/-- C8: the Green-Algorithms normalizer terminates with an unhandled lookup
error, before writing its output file, if and only if some cleaned model
name (after removing `"AMD"` and stripping whitespace, over the non-sentinel
rows) is absent from the merged fixed thread-count tables; when every
cleaned model name is present it succeeds, and the rows it writes carry the
inferred manufacturer and looked-up threads columns. -/
theorem c8_normalizer_fails_iff_missing_model (rows : List GARow) :
    ((∃ out, pre_process rows = Except.ok out) ↔
      ∀ r ∈ rows, r.model ≠ sAny → (gaThreads (cleanModel r.model)).isSome = true) ∧
    (∀ out, pre_process rows = Except.ok out →
      out = (rows.filter (fun r => !(r.model == sAny))).map gaAugment) := by
  constructor
  · rw [show (∃ out, pre_process rows = Except.ok out) =
        (∃ out, preProcessRows (rows.filter (fun r => !(r.model == sAny))) = Except.ok out)
      from rfl]
    rw [(preProcessRows_spec _).1]
    constructor
    · intro hall r hr hne
      exact hall r (List.mem_filter.mpr ⟨hr, by simp [hne]⟩)
    · intro hall r hr
      have hm := List.mem_filter.mp hr
      exact hall r hm.1 (by simpa using hm.2)
  · intro out h
    exact (preProcessRows_spec _).2 out h

/-- Witness for C8: a dataset of one `Ryzen 5 3600` row (plus the sentinel)
is accepted by the normalizer. -/
theorem c8_normalizer_fails_iff_missing_model_witness :
    ∃ out, pre_process [⟨"Any".data, []⟩, ⟨"AMD Ryzen 5 3600".data, []⟩] = Except.ok out :=
  (c8_normalizer_fails_iff_missing_model _).1.mpr (by decide)

/-! ## Claim C3: hyphenated TDP ranges -/

/-- Counterexample to C3 as stated: for the Ampere Altra parser a hyphenated
TDP `"10-20"` is not parsed to `15.0`; the row fails with a `ValueError` and
the parser contributes no record at all. -/
theorem c3_counterexample :
    altraProcessRow [(hAltraName, "X1".data), (hAltraCores, "4".data),
      (hAltraPower, "10-20".data)] = RowOutcome.err ∧
    read_and_process_ampere_altra []
      (some ⟨[hAltraName, hAltraCores, hAltraPower],
        [[(hAltraName, "X1".data), (hAltraCores, "4".data),
          (hAltraPower, "10-20".data)]]⟩) = [] := ⟨rfl, rfl⟩

/-- C3 amended: only the AMD parser handles hyphenated TDP ranges: there a
TDP field `a-b` with numeric bounds parses to `(a+b)/2`; the other four
parsers feed the raw string to `float`, so a hyphenated TDP is a parse
failure (the row is skipped in the Altra, One and Green-Algorithms parsers
and aborts the run in the Intel parser). -/
theorem c3_amd_hyphen_range_average (t₁ t₂ : Str) (q₁ q₂ : ℚ)
    (h₁ : '-' ∉ t₁) (h₂ : '-' ∉ t₂)
    (hp₁ : parseFloat t₁ = some q₁) (hp₂ : parseFloat t₂ = some q₂) :
    amdParseTdp (t₁ ++ '-' :: t₂) = some ((q₁ + q₂) / 2) := by
  unfold amdParseTdp
  rw [if_pos ((hasSub_single_iff '-' _).mpr (by simp))]
  rw [splitOnChar_append_cons '-' t₁ t₂ h₁, splitOnChar_of_not_mem '-' t₂ h₂]
  dsimp only
  rw [hp₁, hp₂]

section
attribute [local semireducible] Rat.add Rat.mul Rat.inv Rat.sub

/-- Witness for C3 amended: `"65-105"` parses to `85.0` in the AMD parser. -/
theorem c3_amd_hyphen_range_average_witness :
    amdParseTdp ("65".data ++ '-' :: "105".data) = some ((65 + 105) / 2) :=
  c3_amd_hyphen_range_average "65".data "105".data 65 105 (by decide) (by decide)
    (by decide) (by decide)

end

/-! ## Claim C4: missing input files -/

/-- Counterexample to C4 as stated: with the Intel directory missing, the
run dies with an uncaught `FileNotFoundError` even though the
Green-Algorithms source (processed after Intel) is present: no mapping is
ever produced. -/
theorem c4_counterexample :
    mergePipeline
      { amd := none, altra := none, one := none, intel := none,
        ga := some ⟨gaRequired,
          [[(hGaModel, "Ryzen 5 3600".data), (hGaTdp, "65".data), (hGaNCores, "6".data),
            (hGaTdpPerCore, "10.8".data), (hGaSource, "u".data),
            (hGaManufacturer, "AMD".data), (hGaThreads, "12".data)]]⟩ } =
      Except.error errFileNotFound := rfl

/-- C4 amended: for the AMD, Ampere Altra, Ampere One and Green-Algorithms
sources a missing input file is caught and reported and the source
contributes no records, the run continuing; for the Intel source a missing
directory raises an uncaught `FileNotFoundError` that is fatal to the whole
run. -/
theorem c4_missing_input_handling :
    (∀ m : Mapping, read_and_process_amd m none = m) ∧
    (∀ m : Mapping, read_and_process_ampere_altra m none = m) ∧
    (∀ m : Mapping, read_and_process_ampere_one m none = m) ∧
    (∀ m : Mapping, read_and_process_green_algorithms m none = m) ∧
    (∀ m : Mapping, read_and_process_intel m none = Except.error errFileNotFound) ∧
    (∀ i : Inputs, i.intel = none → mergePipeline i = Except.error errFileNotFound) := by
  refine ⟨fun m => rfl, fun m => rfl, fun m => rfl, fun m => rfl, fun m => rfl, ?_⟩
  intro i h
  simp only [mergePipeline, h]
  rfl

/-- Witness for C4 amended: the last conjunct at a concrete input. -/
theorem c4_missing_input_handling_witness :
    mergePipeline { amd := none, altra := none, one := none, intel := none, ga := none } =
      Except.error errFileNotFound :=
  c4_missing_input_handling.2.2.2.2.2
    { amd := none, altra := none, one := none, intel := none, ga := none } rfl

/-! ## Claim C7: missing required headers -/

theorem headersOk_false_of_missing (req fns : List Str) (hm : ∃ h0 ∈ req, h0 ∉ fns) :
    headersOk req fns = false := by
  unfold headersOk
  rw [List.all_eq_false]
  obtain ⟨h0, hmem, hnot⟩ := hm
  refine ⟨h0, hmem, ?_⟩
  intro hc
  exact hnot (List.elem_iff.mp hc)

/-- C7: for every parser with a required-header set (AMD, Ampere Altra,
Ampere One and Green-Algorithms; the Intel parser checks no headers), a file
missing any required column contributes zero records: after the reported
`ValueError` the shared mapping is returned exactly as it was handed in, so
the records contributed by other sources are unaffected. -/
theorem c7_missing_header_zero_records :
    (∀ (m : Mapping) (f : CsvFile), (∃ h0 ∈ amdRequired, h0 ∉ f.fieldnames) →
      read_and_process_amd m (some f) = m) ∧
    (∀ (m : Mapping) (f : CsvFile), (∃ h0 ∈ altraRequired, h0 ∉ f.fieldnames) →
      read_and_process_ampere_altra m (some f) = m) ∧
    (∀ (m : Mapping) (f : CsvFile), (∃ h0 ∈ oneRequired, h0 ∉ f.fieldnames) →
      read_and_process_ampere_one m (some f) = m) ∧
    (∀ (m : Mapping) (f : CsvFile), (∃ h0 ∈ gaRequired, h0 ∉ f.fieldnames) →
      read_and_process_green_algorithms m (some f) = m) := by
  refine ⟨?_, ?_, ?_, ?_⟩ <;> intro m f hm
  · simp only [read_and_process_amd]
    rw [if_neg (by simp [headersOk_false_of_missing amdRequired f.fieldnames hm])]
  · simp only [read_and_process_ampere_altra]
    rw [if_neg (by simp [headersOk_false_of_missing altraRequired f.fieldnames hm])]
  · simp only [read_and_process_ampere_one]
    rw [if_neg (by simp [headersOk_false_of_missing oneRequired f.fieldnames hm])]
  · simp only [read_and_process_green_algorithms]
    rw [if_neg (by simp [headersOk_false_of_missing gaRequired f.fieldnames hm])]

/-- A record used by concrete examples. -/
def dummyRec : Record :=
  { tdp := 1, manufacturer := sAMD, model := sAMD, n_cores := 1, n_threads := 1,
    tdp_per_core := 1, tdp_per_thread := 1, source := sAMD }

/-- Witness for C7: a file whose only column is `Name` is rejected by the
AMD parser and a non-empty mapping passes through unchanged. -/
theorem c7_missing_header_zero_records_witness :
    read_and_process_amd [(sAMD, dummyRec)] (some ⟨[hName], [[(hName, sAMD)]]⟩) =
      [(sAMD, dummyRec)] :=
  c7_missing_header_zero_records.1 _ ⟨[hName], [[(hName, sAMD)]]⟩
    ⟨hDefaultTdp, by decide, by decide⟩

/-! ## Claim C10: empty AMD fields are skipped silently -/

theorem writesOf_drop_row (f : Row → RowOutcome) (pre post : List Row) (row : Row)
    (h : outWrite (f row) = none) :
    writesOf f (pre ++ row :: post) = writesOf f (pre ++ post) := by
  unfold writesOf
  rw [List.filterMap_append, List.filterMap_append, List.filterMap_cons]
  simp only [h]

/-- C10: a row of the AMD CSV whose trimmed `Default TDP` (after removing
`W` and `+`), `# of CPU Cores` or `# of Threads` cell is the empty string
takes the silent `continue` (lines 26-27): the outcome is `skip`, not the
reported `err`, no record is inserted, and the surrounding rows are
processed exactly as if the row were absent. -/
theorem c10_amd_empty_fields_silent :
    (∀ row : Row,
      (replaceAll sPlus [] (replaceAll sW [] (trim (rowGet row hDefaultTdp))) = [] ∨
        trim (rowGet row hCpuCores) = [] ∨ trim (rowGet row hNThreads) = []) →
      amdProcessRow row = RowOutcome.skip) ∧
    (∀ (m : Mapping) (fns : List Str) (pre post : List Row) (row : Row),
      headersOk amdRequired fns = true →
      (replaceAll sPlus [] (replaceAll sW [] (trim (rowGet row hDefaultTdp))) = [] ∨
        trim (rowGet row hCpuCores) = [] ∨ trim (rowGet row hNThreads) = []) →
      read_and_process_amd m (some ⟨fns, pre ++ row :: post⟩) =
        read_and_process_amd m (some ⟨fns, pre ++ post⟩)) := by
  have hskip : ∀ row : Row,
      (replaceAll sPlus [] (replaceAll sW [] (trim (rowGet row hDefaultTdp))) = [] ∨
        trim (rowGet row hCpuCores) = [] ∨ trim (rowGet row hNThreads) = []) →
      amdProcessRow row = RowOutcome.skip := by
    intro row h
    dsimp only [amdProcessRow]
    rw [if_pos (by rcases h with h | h | h <;> simp [h])]
  refine ⟨hskip, ?_⟩
  intro m fns pre post row hh he
  simp only [read_and_process_amd]
  rw [if_pos hh, if_pos hh, foldl_stepOutcome, foldl_stepOutcome,
    writesOf_drop_row _ _ _ _ (by rw [hskip row he]; rfl)]

/-- Witness for C10: a row with an empty `# of Threads` cell is skipped and
the mapping stays empty. -/
theorem c10_amd_empty_fields_silent_witness :
    amdProcessRow [(hName, sAMD), (hDefaultTdp, "65".data), (hCpuCores, "6".data),
      (hNThreads, " ".data)] = RowOutcome.skip :=
  c10_amd_empty_fields_silent.1 _ (by decide)

/-! ## Claim C6: the guarded per-core and per-thread divisions -/

/-- The division behaviour claimed of every constructed record. -/
def divisionSpec (r : Record) : Prop :=
  (0 < r.n_cores → r.tdp_per_core = r.tdp / (r.n_cores : ℚ)) ∧
  (r.n_cores = 0 → r.tdp_per_core = 0) ∧
  (0 < r.n_threads → r.tdp_per_thread = r.tdp / (r.n_threads : ℚ)) ∧
  (r.n_threads = 0 → r.tdp_per_thread = 0)

theorem divisionSpec_of_shape (r : Record)
    (hc : r.tdp_per_core = tdpPer r.tdp r.n_cores)
    (ht : r.tdp_per_thread = tdpPer r.tdp r.n_threads) : divisionSpec r := by
  refine ⟨fun h => ?_, fun h => ?_, fun h => ?_, fun h => ?_⟩
  · rw [hc]
    exact tdpPer_pos _ _ h
  · rw [hc]
    exact tdpPer_zero _ _ h
  · rw [ht]
    exact tdpPer_pos _ _ h
  · rw [ht]
    exact tdpPer_zero _ _ h

/-- C6: every record built by any of the five parsers computes
`tdp_per_core` as exactly `tdp / n_cores` when the parsed core count is
positive and as `0` when it is `0`, and symmetrically for threads; the
construction is total, so no record construction raises a division error. -/
theorem c6_division_guard :
    (∀ (row : Row) (k : Str) (r : Record),
      amdProcessRow row = RowOutcome.ok k r → divisionSpec r) ∧
    (∀ (row : Row) (k : Str) (r : Record),
      altraProcessRow row = RowOutcome.ok k r → divisionSpec r) ∧
    (∀ (row : Row) (k : Str) (r : Record),
      oneProcessRow row = RowOutcome.ok k r → divisionSpec r) ∧
    (∀ (row : Row) (k : Str) (r : Record),
      gaProcessRow row = RowOutcome.ok k r → divisionSpec r) ∧
    (∀ (carry : Option PyTdp) (name : Str) (details : Details) (c2 : Option PyTdp)
      (w : Str × Record),
      intelProcStep carry name details = Except.ok (c2, some w) → divisionSpec w.2) := by
  refine ⟨?_, ?_, ?_, ?_, ?_⟩
  · intro row k r h
    obtain ⟨-, -, hc, ht⟩ := amdProcessRow_ok_shape row k r h
    exact divisionSpec_of_shape r hc ht
  · intro row k r h
    obtain ⟨-, -, hc, ht⟩ := altraProcessRow_ok_shape row k r h
    exact divisionSpec_of_shape r hc ht
  · intro row k r h
    obtain ⟨-, -, hc, ht⟩ := oneProcessRow_ok_shape row k r h
    exact divisionSpec_of_shape r hc ht
  · intro row k r h
    obtain ⟨-, -, hc, ht⟩ := gaProcessRow_ok_shape row k r h
    exact divisionSpec_of_shape r hc ht
  · intro carry name details c2 w h
    obtain ⟨-, -, hc, ht⟩ := intelProcStep_ok_shape carry name details c2 w h
    exact divisionSpec_of_shape w.2 hc ht

/-! ## Claim C9: shape of the serialized output -/

/-- C9: the serialized output is exactly the two preamble lines
`index,in Watt,,,` and `model,TDP,n_cores,TDP_per_core,source` followed by
one comma-joined line per record of the mapping, with no quoting or escaping
(stated for fields without embedded newlines, the only way a cell can arrive
from a CSV reader); and a record line reads only the model, tdp, n_cores,
tdp_per_core and source fields: two records agreeing on those five fields
serialize identically however their n_threads, tdp_per_thread and
manufacturer fields differ, so those computed fields are never written. -/
theorem c9_output_shape :
    (∀ rs : List Record, (∀ r ∈ rs, '\n' ∉ r.model ∧ '\n' ∉ r.source) →
      linesOf (serializeOutput rs) = outPreamble :: outHeader :: rs.map renderRecord) ∧
    (∀ r₁ r₂ : Record, r₁.model = r₂.model → r₁.tdp = r₂.tdp → r₁.n_cores = r₂.n_cores →
      r₁.tdp_per_core = r₂.tdp_per_core → r₁.source = r₂.source →
      renderRecord r₁ = renderRecord r₂) := by
  constructor
  · intro rs hclean
    unfold serializeOutput
    rw [linesOf_append_newline _ _ (by decide),
      linesOf_flatten rs outHeader (by decide) hclean]
  · intro r₁ r₂ h1 h2 h3 h4 h5
    unfold renderRecord
    rw [h1, h2, h3, h4, h5]

/-- Witness for C9: the serialization of a one-record mapping has exactly
three lines. -/
theorem c9_output_shape_witness :
    linesOf (serializeOutput [dummyRec]) =
      [outPreamble, outHeader, renderRecord dummyRec] :=
  (c9_output_shape.1 [dummyRec] (by decide))

/-! ## Claim C5: manufacturer prefixes and trademark glyphs -/

def c5AmdFile : CsvFile :=
  ⟨amdRequired, [[(hName, "AMD Ryzen® 5".data), (hDefaultTdp, "65W".data),
    (hCpuCores, "6".data), (hNThreads, "12".data)]]⟩

section
attribute [local semireducible] Rat.add Rat.mul Rat.inv Rat.sub

/-- Counterexample to C5 as stated: the AMD parser strips only `AMD` and
`™`, so the record it inserts for the name `AMD Ryzen® 5` has the `®` glyph
in its normalized model name. -/
theorem c5_counterexample :
    (read_and_process_amd [] (some c5AmdFile)).any (fun p => hasSub sReg p.2.model) = true := by
  decide

end

theorem hasSub_single_trim_replaceAll (c : Char) (x : Str) :
    hasSub [c] (trim (replaceAll [c] [] x)) = false := by
  cases hb : hasSub [c] (trim (replaceAll [c] [] x)) with
  | false => rfl
  | true =>
    exact absurd (mem_trim _ _ ((hasSub_single_iff _ _).mp hb))
      (not_mem_replaceAll_single c x)

/-- C5 amended: each parser strips only its own decorations — the AMD parser
removes `AMD` and `™`, the Ampere One parser removes `®`, the Intel parser
removes `Intel` and `®`, and the Ampere Altra and Green-Algorithms parsers
remove nothing.  In particular a record inserted by the AMD parser never
retains `™` and a record inserted by the Ampere One or Intel parser never
retains `®`; the other listed substrings can survive normalization. -/
theorem c5_glyph_stripping :
    (∀ (row : Row) (k : Str) (r : Record),
      amdProcessRow row = RowOutcome.ok k r → hasSub sTm r.model = false) ∧
    (∀ (row : Row) (k : Str) (r : Record),
      oneProcessRow row = RowOutcome.ok k r → hasSub sReg r.model = false) ∧
    (∀ (carry : Option PyTdp) (name : Str) (details : Details) (c2 : Option PyTdp)
      (w : Str × Record),
      intelProcStep carry name details = Except.ok (c2, some w) →
      hasSub sReg w.2.model = false) := by
  have hTm : sTm = ['™'] := by decide
  have hReg : sReg = ['®'] := by decide
  refine ⟨?_, ?_, ?_⟩
  · intro row k r h
    obtain ⟨-, hm, -, -⟩ := amdProcessRow_ok_shape row k r h
    rw [hm, hTm]
    exact hasSub_single_trim_replaceAll '™' _
  · intro row k r h
    obtain ⟨-, hm, -, -⟩ := oneProcessRow_ok_shape row k r h
    rw [hm, hReg]
    exact hasSub_single_trim_replaceAll '®' _
  · intro carry name details c2 w h
    obtain ⟨-, hm, -, -⟩ := intelProcStep_ok_shape carry name details c2 w h
    rw [hm, hReg]
    exact hasSub_single_trim_replaceAll '®' _

/-! ## Claim C2: row-level error isolation -/

def c2IntelBadFile : IntelFile :=
  ⟨[[], [], ["idx".data, "ProcA".data], [sTDP, "95W".data],
    [sTotalCores, "abc".data], [sTotalThreads, "2".data]]⟩

def c2IntelBadFileB : IntelFile :=
  ⟨[[], [], ["idx".data, "ProcB".data], [sTDP, "95W".data],
    [sTotalCores, "8".data], [sTotalThreads, "xy".data]]⟩

/-- Counterexample to C2 as stated: the Intel parser has no row-level error
handling; a single processor column with the non-numeric `Total Cores` cell
`abc` raises an uncaught `ValueError` that aborts the parser and the run
instead of being reported and skipped. -/
theorem c2_counterexample :
    read_and_process_intel [] (some [c2IntelBadFile]) = Except.error errValue := rfl

/-- C2 amended: in the AMD, Ampere Altra, Ampere One and Green-Algorithms
parsers a malformed row is caught by the per-row `except ValueError`,
reported as the `err` outcome and dropped, the remaining rows of the file
being processed exactly as if the row were absent; the Intel parser has no
row-level handling, so a malformed row aborts its file and the whole run
with an uncaught exception. -/
theorem c2_row_error_isolation :
    (∀ (m : Mapping) (fns : List Str) (pre post : List Row) (row : Row),
      headersOk amdRequired fns = true → amdProcessRow row = RowOutcome.err →
      read_and_process_amd m (some ⟨fns, pre ++ row :: post⟩) =
        read_and_process_amd m (some ⟨fns, pre ++ post⟩)) ∧
    (∀ (m : Mapping) (fns : List Str) (pre post : List Row) (row : Row),
      headersOk altraRequired fns = true → altraProcessRow row = RowOutcome.err →
      read_and_process_ampere_altra m (some ⟨fns, pre ++ row :: post⟩) =
        read_and_process_ampere_altra m (some ⟨fns, pre ++ post⟩)) ∧
    (∀ (m : Mapping) (fns : List Str) (pre post : List Row) (row : Row),
      headersOk oneRequired fns = true → oneProcessRow row = RowOutcome.err →
      read_and_process_ampere_one m (some ⟨fns, pre ++ row :: post⟩) =
        read_and_process_ampere_one m (some ⟨fns, pre ++ post⟩)) ∧
    (∀ (m : Mapping) (fns : List Str) (pre post : List Row) (row : Row),
      headersOk gaRequired fns = true → gaProcessRow row = RowOutcome.err →
      read_and_process_green_algorithms m (some ⟨fns, pre ++ row :: post⟩) =
        read_and_process_green_algorithms m (some ⟨fns, pre ++ post⟩)) ∧
    (read_and_process_intel [] (some [c2IntelBadFileB]) = Except.error errValue) := by
  refine ⟨?_, ?_, ?_, ?_, rfl⟩
  · intro m fns pre post row hh he
    simp only [read_and_process_amd]
    rw [if_pos hh, if_pos hh, foldl_stepOutcome, foldl_stepOutcome,
      writesOf_drop_row _ _ _ _ (by rw [he]; rfl)]
  · intro m fns pre post row hh he
    simp only [read_and_process_ampere_altra]
    rw [if_pos hh, if_pos hh, foldl_stepOutcome, foldl_stepOutcome,
      writesOf_drop_row _ _ _ _ (by rw [he]; rfl)]
  · intro m fns pre post row hh he
    simp only [read_and_process_ampere_one]
    rw [if_pos hh, if_pos hh, foldl_stepOutcome, foldl_stepOutcome,
      writesOf_drop_row _ _ _ _ (by rw [he]; rfl)]
  · intro m fns pre post row hh he
    simp only [read_and_process_green_algorithms]
    rw [if_pos hh, if_pos hh, foldl_stepOutcome, foldl_stepOutcome,
      writesOf_drop_row _ _ _ _ (by rw [he]; rfl)]

/-! ## Claim C1: fixed order, unique keys, last writer wins -/

/-- C1: when the pipeline completes, the final mapping is exactly the write
sequence of the five sources applied in the fixed order AMD, Ampere Altra,
Ampere One, Intel, Green-Algorithms to the empty dict: its keys are unique,
and every key holds precisely the record of the last write with that key —
a later source's record replaces an earlier one wholesale, with no
field-level merging. -/
theorem c1_pipeline_last_writer_wins (i : Inputs) (m : Mapping)
    (h : mergePipeline i = Except.ok m) :
    ∃ ws : List (Str × Record), allWrites i = Except.ok ws ∧
      m = applyWrites [] ws ∧
      (keysA m).Nodup ∧
      ∀ k : Str, lookupA m k = lastWrite ws k := by
  simp only [mergePipeline] at h
  rw [intel_eq_applyWrites] at h
  cases hiw : intelWrites i.intel with
  | error e =>
    rw [hiw] at h
    simp [Except.map] at h
  | ok iws =>
    rw [hiw] at h
    simp only [Except.map] at h
    have hm : m = read_and_process_green_algorithms
        (applyWrites (read_and_process_ampere_one (read_and_process_ampere_altra
          (read_and_process_amd [] i.amd) i.altra) i.one) iws) i.ga := by
      injection h with h2
      exact h2.symm
    have hw : m = applyWrites []
        (amdWrites i.amd ++ altraWrites i.altra ++ oneWrites i.one ++ iws ++ gaWrites i.ga) := by
      rw [hm, ga_eq_applyWrites, one_eq_applyWrites, altra_eq_applyWrites, amd_eq_applyWrites]
      rw [applyWrites_append, applyWrites_append, applyWrites_append, applyWrites_append]
    refine ⟨_, ?_, hw, ?_, ?_⟩
    · unfold allWrites
      rw [hiw]
    · rw [hw]
      exact nodup_keysA_applyWrites _ _ (by simp [keysA])
    · intro k
      rw [hw, lookupA_applyWrites]
      rw [lookupA_nil, Option.or_none]

/-! ## Concrete witnesses for C6, C5, C2 and C1 -/

def wAmdRow : Row :=
  [(hName, "AMD Ryzen 5 3600".data), (hDefaultTdp, "65W".data),
   (hCpuCores, "6".data), (hNThreads, "12".data)]

def wAmdKey : Str := "Ryzen 5 3600".data

def wAmdRec : Record :=
  { tdp := 65, manufacturer := sAMD, model := "Ryzen 5 3600".data, n_cores := 6,
    n_threads := 12, tdp_per_core := tdpPer 65 6, tdp_per_thread := tdpPer 65 12,
    source := amdSourceUrl }

def wAmdBadRow : Row :=
  [(hName, "X".data), (hDefaultTdp, "65".data), (hCpuCores, "six".data),
   (hNThreads, "12".data)]

def wGaRow : Row :=
  [(hGaModel, "Ryzen 5 3600".data), (hGaTdp, "95".data), (hGaNCores, "12".data),
   (hGaTdpPerCore, "7.9".data), (hGaSource, "u".data),
   (hGaManufacturer, "AMD".data), (hGaThreads, "24".data)]

def wGaRec : Record :=
  { tdp := 95, manufacturer := sAMD, model := "Ryzen 5 3600".data, n_cores := 12,
    n_threads := 24, tdp_per_core := tdpPer 95 12, tdp_per_thread := tdpPer 95 24,
    source := "u".data }

def wInputs : Inputs :=
  { amd := some ⟨amdRequired, [wAmdRow]⟩,
    altra := none,
    one := none,
    intel := some [],
    ga := some ⟨gaRequired, [wGaRow]⟩ }

def wFinalMapping : Mapping := [(wAmdKey, wGaRec)]

section
attribute [local semireducible] Rat.add Rat.mul Rat.inv Rat.sub

/-- Witness for C6: the record parsed from the concrete AMD row
`AMD Ryzen 5 3600, 65W, 6, 12` has `tdp_per_core` equal to `tdp / n_cores`. -/
theorem c6_division_guard_witness :
    wAmdRec.tdp_per_core = wAmdRec.tdp / (wAmdRec.n_cores : ℚ) :=
  (c6_division_guard.1 wAmdRow wAmdKey wAmdRec (by decide)).1 (by decide)

/-- Witness for C5 amended: the record parsed from the concrete AMD row has
no `™` left in its model. -/
theorem c5_glyph_stripping_witness :
    hasSub sTm wAmdRec.model = false :=
  c5_glyph_stripping.1 wAmdRow wAmdKey wAmdRec (by decide)

/-- Witness for C2 amended: a malformed AMD row (`# of CPU Cores` is `six`)
is dropped and the file parses as if the row were absent. -/
theorem c2_row_error_isolation_witness :
    read_and_process_amd [] (some ⟨amdRequired, [wAmdBadRow]⟩) =
      read_and_process_amd [] (some ⟨amdRequired, []⟩) :=
  c2_row_error_isolation.1 [] amdRequired [] [] wAmdBadRow (by decide) (by decide)

/-- Witness for C1: a run in which the AMD source and the Green-Algorithms
source define the same model `Ryzen 5 3600`; the final one-entry mapping
holds the Green-Algorithms record, the last write of that key. -/
theorem c1_pipeline_last_writer_wins_witness :
    ∃ ws : List (Str × Record), allWrites wInputs = Except.ok ws ∧
      wFinalMapping = applyWrites [] ws ∧
      (keysA wFinalMapping).Nodup ∧
      ∀ k : Str, lookupA wFinalMapping k = lastWrite ws k :=
  c1_pipeline_last_writer_wins wInputs wFinalMapping (by rfl)

end
